import Mathlib

/-!
# micro-journal: verification of the pagination and layering contract

Shallow embedding of the micro-journal backend core:

* the persistence adapter `store.JournalStore` (`Create`, `GetByID`, `Update`,
  `Delete`, `List`) over a SQLite table, modelled as a list of rows plus the
  AUTOINCREMENT counter, with the SQL query semantics spelled out
  (`ORDER BY created_at DESC, id DESC LIMIT ? OFFSET ?`, `COUNT(*)`,
  rows-affected checks);
* the business-rule manager `manager.JournalManager` (`CreateEntry`,
  `GetEntry`, `UpdateEntry`, `DeleteEntry`, `ListEntries`), parameterised over
  an abstract store interface exactly as the Go code is parameterised over the
  `JournalStore` interface;
* the page-token codec used by `ListEntries`: Go's `base64.StdEncoding`
  together with `strconv.Itoa` / `strconv.Atoi` (64-bit `int`).

Go strings and byte slices are modelled as `List Nat` (byte values); `int64` /
`int` values as `Int`, with the two's-complement wrap of `int` addition made
explicit where the Go code can overflow; timestamps as `Nat`.
-/

/-- A Go string / byte slice: the list of its byte values. -/
abbrev Str : Type := List Nat

instance exceptDecEq {ε α : Type} [DecidableEq ε] [DecidableEq α] :
    DecidableEq (Except ε α)
  | .error e, .error e' => decidable_of_iff (e = e') (by simp)
  | .error _, .ok _ => isFalse (fun h => Except.noConfusion h)
  | .ok _, .error _ => isFalse (fun h => Except.noConfusion h)
  | .ok a, .ok a' => decidable_of_iff (a = a') (by simp)

/-- Byte values of an ASCII string literal (used for error messages and
concrete tokens). -/
def asciiStr (s : String) : Str := s.toList.map Char.toNat

/-- Go struct `domain.JournalEntry`: the sole domain entity. `ID` is a Go `int64`,
`Title`/`Content` are strings, `CreatedAt`/`UpdatedAt` are timestamps. -/
structure Entry where
  id : Int
  title : Str
  content : Str
  createdAt : Nat
  updatedAt : Nat
deriving DecidableEq, Repr

/-- The error kinds produced by the store and manager layers.  The Go code
returns untyped `error` values with distinct messages; each distinct outcome is
one constructor here.  `validationError` carries the manager's message
("title cannot be empty" / "content cannot be empty"); `notFound` carries the
id interpolated into "journal entry not found: %d"; `storageError` stands for
the wrapped driver failures ("failed to ...: %w"), which the pure model never
produces but which the taxonomy distinguishes. -/
inductive Err where
  | validationError (msg : Str)
  | invalidPageToken
  | notFound (id : Int)
  | storageError
deriving DecidableEq, Repr

/-- Message "title cannot be empty" (manager validation message). -/
def titleEmptyMsg : Str := asciiStr "title cannot be empty"

/-- Message "content cannot be empty" (manager validation message). -/
def contentEmptyMsg : Str := asciiStr "content cannot be empty"

/-! ## Go `encoding/base64` StdEncoding -/

/-- The standard base-64 alphabet: value `i < 64` to ASCII code. -/
def b64char (i : Nat) : Nat :=
  if i < 26 then 65 + i
  else if i < 52 then 71 + i
  else if i < 62 then i - 4
  else if i = 62 then 43
  else 47

/-- Inverse of the standard base-64 alphabet: ASCII code to value. -/
def b64val (c : Nat) : Option Nat :=
  if 65 ≤ c ∧ c ≤ 90 then some (c - 65)
  else if 97 ≤ c ∧ c ≤ 122 then some (c - 71)
  else if 48 ≤ c ∧ c ≤ 57 then some (c + 4)
  else if c = 43 then some 62
  else if c = 47 then some 63
  else none

/-- Go `base64.StdEncoding.EncodeToString`: bytes to padded base-64 text
(3-byte groups to 4 characters, `=` = 61 as padding). -/
def b64encode : Str → Str
  | [] => []
  | [a] => [b64char (a / 4), b64char (a % 4 * 16), 61, 61]
  | [a, b] => [b64char (a / 4), b64char (a % 4 * 16 + b / 16), b64char (b % 16 * 4), 61]
  | a :: b :: c :: rest =>
      b64char (a / 4) :: b64char (a % 4 * 16 + b / 16) ::
      b64char (b % 16 * 4 + c / 64) :: b64char (c % 64) :: b64encode rest

/-- Decode a newline-free base-64 text chunk by chunk.  Mirrors Go's
`StdEncoding` decoder: the length must be a multiple of 4, `=` padding may
appear only at the very end (one or two characters), and non-zero unused
trailing bits are accepted (Go's non-Strict default). -/
def b64chunks : Str → Option Str
  | [] => some []
  | a :: b :: c :: d :: rest =>
      match b64val a, b64val b with
      | some va, some vb =>
          if c = 61 then
            if d = 61 ∧ rest = [] then some [va * 4 + vb / 16] else none
          else
            match b64val c with
            | some vc =>
                if d = 61 then
                  if rest = [] then some [va * 4 + vb / 16, vb % 16 * 16 + vc / 4]
                  else none
                else
                  match b64val d with
                  | some vd =>
                      (b64chunks rest).map
                        (fun tail => (va * 4 + vb / 16) :: (vb % 16 * 16 + vc / 4) ::
                          (vc % 4 * 64 + vd) :: tail)
                  | none => none
            | none => none
      | _, _ => none
  | _ => none

/-- Go `base64.StdEncoding.DecodeString`: `\r` (13) and `\n` (10) are ignored
anywhere in the input, then the text is decoded in 4-character chunks. -/
def b64decode (s : Str) : Option Str :=
  b64chunks (s.filter (fun c => decide (c ≠ 10) && decide (c ≠ 13)))

/-! ## Go `strconv` (64-bit `int`) -/

/-- Decimal digits of `n` (ASCII, most significant first); empty for `0`.
`fuel ≥ n` makes the recursion structural (so that the kernel can evaluate it);
`natDigits` instantiates `fuel := n`. -/
def natDigitsAux : Nat → Nat → Str
  | 0, _ => []
  | fuel + 1, n => if n = 0 then [] else natDigitsAux fuel (n / 10) ++ [48 + n % 10]

/-- Decimal digits of `n` (ASCII, most significant first); empty for `0`. -/
def natDigits (n : Nat) : Str := natDigitsAux n n

/-- Go `strconv.Itoa`: decimal text of an integer, `-` (45) for negatives. -/
def itoa (n : Int) : Str :=
  if n < 0 then 45 :: natDigits (-n).toNat
  else if n = 0 then [48]
  else natDigits n.toNat

/-- Accumulate decimal digits; fails on the first non-digit character. -/
def parseDigits : Str → Nat → Option Nat
  | [], acc => some acc
  | c :: rest, acc =>
      if 48 ≤ c ∧ c ≤ 57 then parseDigits rest (acc * 10 + (c - 48)) else none

/-- Go `strconv.Atoi` on a 64-bit platform: optional `+`/`-` sign, then a
non-empty run of decimal digits, with the result required to fit in `int64`
(otherwise `ErrRange`, modelled as `none`). -/
def atoi (s : Str) : Option Int :=
  match s with
  | [] => none
  | c :: rest =>
      if c = 43 then
        if rest = [] then none
        else (parseDigits rest 0).bind
          (fun n => if (n : Int) ≤ 2 ^ 63 - 1 then some (n : Int) else none)
      else if c = 45 then
        if rest = [] then none
        else (parseDigits rest 0).bind
          (fun n => if (n : Int) ≤ 2 ^ 63 then some (-(n : Int)) else none)
      else
        (parseDigits (c :: rest) 0).bind
          (fun n => if (n : Int) ≤ 2 ^ 63 - 1 then some (n : Int) else none)

/-- The page token the manager generates for offset `n`:
`base64.StdEncoding.EncodeToString([]byte(strconv.Itoa(n)))`. -/
def encodePageToken (n : Int) : Str := b64encode (itoa n)

example : encodePageToken 10 = asciiStr "MTA=" := by decide
example : encodePageToken 20 = asciiStr "MjA=" := by decide
example : b64decode (asciiStr "MTA=") = some (asciiStr "10") := by decide
example : atoi (asciiStr "10") = some 10 := by decide
example : atoi (asciiStr "-1") = some (-1) := by decide
example : atoi (asciiStr "") = none := by decide
example : b64decode (asciiStr "invalid-token") = none := by decide

/-! ## The store interface (`manager.JournalStore`)

The manager is written against the `JournalStore` interface, not against the
concrete SQLite store.  A store implementation is a record of possibly
state-changing operations over some state type `σ` (the Go methods act on the
external world; here that world is passed and returned explicitly).  An
operation that fails leaves no observable state. -/

structure StoreOps (σ : Type) where
  create : Str → Str → σ → Except Err (Entry × σ)
  getByID : Int → σ → Except Err (Entry × σ)
  update : Int → Str → Str → σ → Except Err (Entry × σ)
  delete : Int → σ → Except Err σ
  list : Int → Int → σ → Except Err ((List Entry × Int) × σ)

/-! ## The manager (`manager.JournalManager`) -/

/-- Method `JournalManager.CreateEntry`: reject an empty title, then an empty
content, then delegate to the store's `Create`. -/
def CreateEntry {σ : Type} (ops : StoreOps σ) (s : σ) (title content : Str) :
    Except Err (Entry × σ) :=
  if title = [] then .error (.validationError titleEmptyMsg)
  else if content = [] then .error (.validationError contentEmptyMsg)
  else ops.create title content s

/-- Method `JournalManager.GetEntry`: pure delegation to the store's `GetByID`. -/
def GetEntry {σ : Type} (ops : StoreOps σ) (s : σ) (id : Int) :
    Except Err (Entry × σ) :=
  ops.getByID id s

/-- Method `JournalManager.UpdateEntry`: same validation as `CreateEntry`, then
delegation to the store's `Update`. -/
def UpdateEntry {σ : Type} (ops : StoreOps σ) (s : σ) (id : Int)
    (title content : Str) : Except Err (Entry × σ) :=
  if title = [] then .error (.validationError titleEmptyMsg)
  else if content = [] then .error (.validationError contentEmptyMsg)
  else ops.update id title content s

/-- Method `JournalManager.DeleteEntry`: pure delegation to the store's `Delete`. -/
def DeleteEntry {σ : Type} (ops : StoreOps σ) (s : σ) (id : Int) :
    Except Err σ :=
  ops.delete id s

/-- Go struct `manager.ListEntriesResult`. -/
structure ListEntriesResult where
  entries : List Entry
  nextPageToken : Str
  totalCount : Int
deriving DecidableEq, Repr

/-- The two sequential clamps at the top of `ListEntries`:
`if pageSize <= 0 { pageSize = 10 }; if pageSize > 100 { pageSize = 100 }`. -/
def clampPageSize (pageSize : Int) : Int :=
  let ps := if pageSize ≤ 0 then 10 else pageSize
  if ps > 100 then 100 else ps

/-- The page-token decoding block of `ListEntries`: an empty token means
offset 0; otherwise base-64 decode then `strconv.Atoi`, each failure mapped to
the "invalid page token" error. -/
def decodeOffset (pageToken : Str) : Except Err Int :=
  if pageToken = [] then .ok 0
  else
    match b64decode pageToken with
    | none => .error .invalidPageToken
    | some decoded =>
        match atoi decoded with
        | none => .error .invalidPageToken
        | some n => .ok n

/-- Two's-complement wrap of Go `int` (64-bit) addition results. -/
def wrap64 (x : Int) : Int := (x + 2 ^ 63) % 2 ^ 64 - 2 ^ 63

/-- The remainder of `ListEntries` once the offset is decoded: query the
store, then compute `nextOffset = offset + len(entries)` (Go `int` arithmetic,
hence the wrap) and emit the next-page token exactly when
`nextOffset < totalCount`. -/
def ListEntriesWithOffset {σ : Type} (ops : StoreOps σ) (s : σ)
    (pageSize offset : Int) : Except Err (ListEntriesResult × σ) :=
  match ops.list pageSize offset s with
  | .error e => .error e
  | .ok ((entries, totalCount), s') =>
      let nextOffset := wrap64 (offset + entries.length)
      let nextPageToken := if nextOffset < totalCount then encodePageToken nextOffset else []
      .ok ({ entries := entries, nextPageToken := nextPageToken,
             totalCount := totalCount }, s')

/-- Method `JournalManager.ListEntries`: clamp the page size, decode the page token,
query the store with `limit = pageSize`, `offset = decoded offset`, and attach
the next-page token. -/
def ListEntries {σ : Type} (ops : StoreOps σ) (s : σ) (pageSize : Int)
    (pageToken : Str) : Except Err (ListEntriesResult × σ) :=
  match decodeOffset pageToken with
  | .error e => .error e
  | .ok offset => ListEntriesWithOffset ops s (clampPageSize pageSize) offset

/-! ## The persistence adapter (`store.JournalStore` over SQLite)

The table is a list of rows in insertion order together with the next
AUTOINCREMENT id.  `CURRENT_TIMESTAMP` readings are explicit `now` arguments
to the mutating operations. -/

/-- The `journal_entries` table plus its AUTOINCREMENT counter. -/
structure DB where
  rows : List Entry
  nextId : Int
deriving DecidableEq, Repr

/-- The `ORDER BY created_at DESC, id DESC` order: `rowLE a b` says row `a`
sorts no later than row `b`. -/
def rowLE (a b : Entry) : Prop :=
  b.createdAt < a.createdAt ∨ (b.createdAt = a.createdAt ∧ b.id ≤ a.id)

instance : DecidableRel rowLE := fun a b => by unfold rowLE; infer_instance

/-- Method `JournalStore.GetByID`: `SELECT ... WHERE id = ?`; no row is the
"journal entry not found: %d" error. -/
def AdapterGetByID (db : DB) (id : Int) : Except Err Entry :=
  match db.rows.find? (fun r => r.id = id) with
  | some e => .ok e
  | none => .error (.notFound id)

/-- Method `JournalStore.Create`: `INSERT` a row with the next AUTOINCREMENT id and
`created_at = updated_at = CURRENT_TIMESTAMP`, then read the row back with
`GetByID` (the Go code returns `s.GetByID(ctx, id)`). -/
def AdapterCreate (db : DB) (title content : Str) (now : Nat) :
    Except Err (Entry × DB) :=
  let row : Entry :=
    { id := db.nextId, title := title, content := content,
      createdAt := now, updatedAt := now }
  let db' : DB := { rows := db.rows ++ [row], nextId := db.nextId + 1 }
  match AdapterGetByID db' row.id with
  | .ok e => .ok (e, db')
  | .error e => .error e

/-- Method `JournalStore.Update`: `UPDATE ... SET title, content,
updated_at = CURRENT_TIMESTAMP WHERE id = ?`; zero rows affected is the
"journal entry not found: %d" error, otherwise the row is read back. -/
def AdapterUpdate (db : DB) (id : Int) (title content : Str) (now : Nat) :
    Except Err (Entry × DB) :=
  let affected := (db.rows.filter (fun r => r.id = id)).length
  let db' : DB :=
    { db with rows := db.rows.map (fun r =>
        if r.id = id then
          { r with title := title, content := content, updatedAt := now }
        else r) }
  if affected = 0 then .error (.notFound id)
  else
    match AdapterGetByID db' id with
    | .ok e => .ok (e, db')
    | .error e => .error e

/-- Method `JournalStore.Delete`: `DELETE ... WHERE id = ?`; zero rows affected is
the "journal entry not found: %d" error. -/
def AdapterDelete (db : DB) (id : Int) : Except Err DB :=
  let affected := (db.rows.filter (fun r => r.id = id)).length
  let db' : DB := { db with rows := db.rows.filter (fun r => ¬ r.id = id) }
  if affected = 0 then .error (.notFound id) else .ok db'

/-- Method `JournalStore.List`: `SELECT COUNT(*)`, then
`SELECT ... ORDER BY created_at DESC, id DESC LIMIT ? OFFSET ?`.  SQLite's
window semantics for out-of-range bind values are explicit: a negative
`OFFSET` behaves as zero, and a negative `LIMIT` means "no upper bound". -/
def AdapterList (db : DB) (limit offset : Int) :
    Except Err (List Entry × Int) :=
  let totalCount : Int := db.rows.length
  let sorted := List.insertionSort rowLE db.rows
  let afterOffset := sorted.drop (max offset 0).toNat
  let window := if limit < 0 then afterOffset else afterOffset.take limit.toNat
  .ok (window, totalCount)

/-- The adapter packaged as a `StoreOps` over state `DB × Nat` (the table and
a clock reading used as `CURRENT_TIMESTAMP` by the mutating operations). -/
def adapterStore : StoreOps (DB × Nat) where
  create := fun title content s =>
    (AdapterCreate s.1 title content s.2).map (fun p => (p.1, (p.2, s.2)))
  getByID := fun id s => (AdapterGetByID s.1 id).map (fun e => (e, s))
  update := fun id title content s =>
    (AdapterUpdate s.1 id title content s.2).map (fun p => (p.1, (p.2, s.2)))
  delete := fun id s => (AdapterDelete s.1 id).map (fun db => (db, s.2))
  list := fun limit offset s => (AdapterList s.1 limit offset).map (fun p => (p, s))

/-! ## Driving the pagination loop -/

/-- Outcome of repeatedly calling `ListEntries` and following tokens. -/
inductive PagesOutcome where
  | pages (entries : List Entry)
  | failed (e : Err)
  | outOfFuel
deriving DecidableEq, Repr

/-- Call `ListEntries`, collect the returned entries, and follow the returned
`nextPageToken` until it is empty (or `fuel` runs out). -/
def followPages {σ : Type} (ops : StoreOps σ) (pageSize : Int) :
    Nat → σ → Str → PagesOutcome
  | 0, _, _ => .outOfFuel
  | fuel + 1, s, tok =>
      match ListEntries ops s pageSize tok with
      | .error e => .failed e
      | .ok (r, s') =>
          if r.nextPageToken = [] then .pages r.entries
          else
            match followPages ops pageSize fuel s' r.nextPageToken with
            | .pages rest => .pages (r.entries ++ rest)
            | out => out

/-! ## Relations, invariants, and concrete instances -/

instance rowLE_isTotal : IsTotal Entry rowLE where
  total := fun a b => by unfold rowLE; omega

instance rowLE_isTrans : IsTrans Entry rowLE where
  trans := fun a b c hab hbc => by unfold rowLE at *; omega

/-- Rows created one after another with no concurrent mutation: along the
creation order, `created_at` never decreases (the storage clock is monotone)
and ids strictly increase (AUTOINCREMENT). -/
def CreatedSeq (rows : List Entry) : Prop :=
  List.Pairwise (fun a b => a.createdAt ≤ b.createdAt ∧ a.id < b.id) rows

instance : DecidablePred CreatedSeq := fun rows => by
  unfold CreatedSeq; infer_instance

/-- The invariants the SQLite schema and a monotone `CURRENT_TIMESTAMP`
maintain for `journal_entries`: `updated_at ≥ created_at`, no timestamp
beyond the clock reading `now`, every id strictly below the AUTOINCREMENT
counter, and ids pairwise distinct (PRIMARY KEY). -/
def DBWF (db : DB) (now : Nat) : Prop :=
  (∀ r ∈ db.rows, r.createdAt ≤ r.updatedAt ∧ r.updatedAt ≤ now ∧
    r.id < db.nextId) ∧
  db.rows.Pairwise (fun a b => a.id ≠ b.id)

instance : ∀ db now, Decidable (DBWF db now) := fun db now => by
  unfold DBWF; infer_instance

/-- A trivial in-memory store over the trivial state, used to instantiate the
manager interface in concrete scenarios: `list` always answers with the fixed
page `es` and total count `tc`. -/
def constStore (es : List Entry) (tc : Int) : StoreOps Unit where
  create := fun title content _ =>
    .ok ({ id := 1, title := title, content := content,
           createdAt := 0, updatedAt := 0 }, ())
  getByID := fun id _ => .error (.notFound id)
  update := fun id _ _ _ => .error (.notFound id)
  delete := fun id _ => .error (.notFound id)
  list := fun _ _ _ => .ok ((es, tc), ())

/-- A sample row: id 1, created at clock 1. -/
def wE1 : Entry :=
  { id := 1, title := [97], content := [98], createdAt := 1, updatedAt := 1 }

/-- A sample row created in the same clock tick as `wE1` (id tie-break). -/
def wE2 : Entry :=
  { id := 2, title := [97], content := [98], createdAt := 1, updatedAt := 1 }

/-- A sample row created after `wE1` and `wE2`. -/
def wE3 : Entry :=
  { id := 3, title := [97], content := [98], createdAt := 2, updatedAt := 2 }

/-- Three sequentially created rows, two of them sharing a `created_at`. -/
def wRows : List Entry := [wE1, wE2, wE3]

/-- A three-row table for adapter scenarios. -/
def wDB : DB := { rows := wRows, nextId := 4 }

/-- The row `wE1` after `Update(id = 1, title = [99], content = [100])` at
clock 5. -/
def wE1upd : Entry :=
  { id := 1, title := [99], content := [100], createdAt := 1, updatedAt := 5 }

/-! ## Round-trip properties of the page-token codec -/

theorem b64val_b64char : ∀ i, i < 64 → b64val (b64char i) = some i := by decide

theorem b64char_gt_13 : ∀ i, i < 64 → 13 < b64char i := by decide

theorem b64char_ne_61 : ∀ i, i < 64 → b64char i ≠ 61 := by decide

/-- Every character of an encoded text is an alphabet character or `=`. -/
theorem mem_b64encode (bs : Str) (h : ∀ x ∈ bs, x < 256) :
    ∀ ch ∈ b64encode bs, (∃ i, i < 64 ∧ ch = b64char i) ∨ ch = 61 := by
  induction bs using b64encode.induct with
  | case1 => intro ch hch; simp [b64encode] at hch
  | case2 a =>
      have ha : a < 256 := h a (by simp)
      intro ch hch
      simp only [b64encode, List.mem_cons, List.mem_singleton] at hch
      rcases hch with h1 | h1 | h1 | h1 | h1
      · exact .inl ⟨a / 4, by omega, h1⟩
      · exact .inl ⟨a % 4 * 16, by omega, h1⟩
      · exact .inr h1
      · exact .inr h1
      · simp at h1
  | case3 a b =>
      have ha : a < 256 := h a (by simp)
      have hb : b < 256 := h b (by simp)
      intro ch hch
      simp only [b64encode, List.mem_cons, List.mem_singleton] at hch
      rcases hch with h1 | h1 | h1 | h1 | h1
      · exact .inl ⟨a / 4, by omega, h1⟩
      · exact .inl ⟨a % 4 * 16 + b / 16, by omega, h1⟩
      · exact .inl ⟨b % 16 * 4, by omega, h1⟩
      · exact .inr h1
      · simp at h1
  | case4 a b c rest ih =>
      have ha : a < 256 := h a (by simp)
      have hb : b < 256 := h b (by simp)
      have hc : c < 256 := h c (by simp)
      intro ch hch
      simp only [b64encode, List.mem_cons] at hch
      rcases hch with h1 | h1 | h1 | h1 | h1
      · exact .inl ⟨a / 4, by omega, h1⟩
      · exact .inl ⟨a % 4 * 16 + b / 16, by omega, h1⟩
      · exact .inl ⟨b % 16 * 4 + c / 64, by omega, h1⟩
      · exact .inl ⟨c % 64, by omega, h1⟩
      · exact ih (fun x hx => h x (by simp [hx])) ch h1

/-- Encoded text contains no `\n`/`\r`, so the decoder's filter is inert. -/
theorem filter_b64encode (bs : Str) (h : ∀ x ∈ bs, x < 256) :
    (b64encode bs).filter (fun c => decide (c ≠ 10) && decide (c ≠ 13)) =
      b64encode bs := by
  apply List.filter_eq_self.mpr
  intro ch hch
  rcases mem_b64encode bs h ch hch with ⟨i, hi, rfl⟩ | rfl
  · have := b64char_gt_13 i hi
    simp; omega
  · simp

theorem b64chunks_b64encode (bs : Str) (h : ∀ x ∈ bs, x < 256) :
    b64chunks (b64encode bs) = some bs := by
  induction bs using b64encode.induct with
  | case1 => rfl
  | case2 a =>
      have ha : a < 256 := h a (by simp)
      have h1 : b64val (b64char (a / 4)) = some (a / 4) :=
        b64val_b64char _ (by omega)
      have h2 : b64val (b64char (a % 4 * 16)) = some (a % 4 * 16) :=
        b64val_b64char _ (by omega)
      simp only [b64encode, b64chunks, h1, h2]
      simp; omega
  | case3 a b =>
      have ha : a < 256 := h a (by simp)
      have hb : b < 256 := h b (by simp)
      have h1 : b64val (b64char (a / 4)) = some (a / 4) :=
        b64val_b64char _ (by omega)
      have h2 : b64val (b64char (a % 4 * 16 + b / 16)) = some (a % 4 * 16 + b / 16) :=
        b64val_b64char _ (by omega)
      have h3 : b64char (b % 16 * 4) ≠ 61 := b64char_ne_61 _ (by omega)
      have h4 : b64val (b64char (b % 16 * 4)) = some (b % 16 * 4) :=
        b64val_b64char _ (by omega)
      simp only [b64encode, b64chunks, h1, h2, h3, h4, if_neg h3]
      simp; omega
  | case4 a b c rest ih =>
      have ha : a < 256 := h a (by simp)
      have hb : b < 256 := h b (by simp)
      have hc : c < 256 := h c (by simp)
      have h1 : b64val (b64char (a / 4)) = some (a / 4) :=
        b64val_b64char _ (by omega)
      have h2 : b64val (b64char (a % 4 * 16 + b / 16)) = some (a % 4 * 16 + b / 16) :=
        b64val_b64char _ (by omega)
      have h3 : b64char (b % 16 * 4 + c / 64) ≠ 61 := b64char_ne_61 _ (by omega)
      have h4 : b64val (b64char (b % 16 * 4 + c / 64)) = some (b % 16 * 4 + c / 64) :=
        b64val_b64char _ (by omega)
      have h5 : b64char (c % 64) ≠ 61 := b64char_ne_61 _ (by omega)
      have h6 : b64val (b64char (c % 64)) = some (c % 64) :=
        b64val_b64char _ (by omega)
      have h7 : b64chunks (b64encode rest) = some rest :=
        ih (fun x hx => h x (by simp [hx]))
      simp only [b64encode, b64chunks, h1, h2, h3, h4, h5, h6, h7, if_neg h3,
        if_neg h5, Option.map_some, Option.some.injEq, List.cons.injEq]
      simp; omega

/-- Round trip `DecodeString ∘ EncodeToString = id` on byte slices. -/
theorem b64decode_b64encode (bs : Str) (h : ∀ x ∈ bs, x < 256) :
    b64decode (b64encode bs) = some bs := by
  rw [b64decode, filter_b64encode bs h]
  exact b64chunks_b64encode bs h

theorem b64encode_ne_nil (bs : Str) (h : bs ≠ []) : b64encode bs ≠ [] := by
  match bs with
  | [] => exact absurd rfl h
  | [a] => simp [b64encode]
  | [a, b] => simp [b64encode]
  | a :: b :: c :: rest => simp [b64encode]

theorem parseDigits_append (xs ys : Str) (acc : Nat) :
    parseDigits (xs ++ ys) acc = (parseDigits xs acc).bind (parseDigits ys) := by
  induction xs generalizing acc with
  | nil => rfl
  | cons c rest ih =>
      by_cases hc : 48 ≤ c ∧ c ≤ 57
      · simp only [List.cons_append, parseDigits, if_pos hc]
        exact ih _
      · simp only [List.cons_append, parseDigits, if_neg hc]
        rfl

/-- Each produced character is an ASCII decimal digit. -/
theorem natDigitsAux_digits :
    ∀ fuel n c, c ∈ natDigitsAux fuel n → 48 ≤ c ∧ c ≤ 57 := by
  intro fuel
  induction fuel with
  | zero => intro n c hc; simp [natDigitsAux] at hc
  | succ f ih =>
      intro n c hc
      simp only [natDigitsAux] at hc
      by_cases hn : n = 0
      · rw [if_pos hn] at hc; simp at hc
      · rw [if_neg hn] at hc
        rcases List.mem_append.mp hc with h1 | h1
        · exact ih _ _ h1
        · simp at h1; omega

/-- Parsing the produced digits recovers `n` (with the accumulator folded in
as the high-order part). -/
theorem parseDigits_natDigitsAux :
    ∀ fuel n acc, n ≤ fuel →
      parseDigits (natDigitsAux fuel n) acc =
        some (acc * 10 ^ (natDigitsAux fuel n).length + n) := by
  intro fuel
  induction fuel with
  | zero =>
      intro n acc hn
      have : n = 0 := by omega
      subst this
      simp [natDigitsAux, parseDigits]
  | succ f ih =>
      intro n acc hn
      by_cases hz : n = 0
      · subst hz; simp [natDigitsAux, parseDigits]
      · have hrec : n / 10 ≤ f := by omega
        simp only [natDigitsAux, if_neg hz]
        rw [parseDigits_append, ih (n / 10) acc hrec]
        rw [Option.some_bind]
        simp only [parseDigits,
          if_pos (by omega : 48 ≤ 48 + n % 10 ∧ 48 + n % 10 ≤ 57)]
        simp only [Option.some.injEq, List.length_append,
          List.length_singleton]
        have hd : 48 + n % 10 - 48 = n % 10 := by omega
        rw [hd, pow_succ]
        have hm : n / 10 * 10 + n % 10 = n := by omega
        calc (acc * 10 ^ (natDigitsAux f (n / 10)).length + n / 10) * 10 + n % 10
            = acc * (10 ^ (natDigitsAux f (n / 10)).length * 10) +
              (n / 10 * 10 + n % 10) := by ring
          _ = acc * (10 ^ (natDigitsAux f (n / 10)).length * 10) + n := by rw [hm]

theorem parseDigits_natDigits (n : Nat) : parseDigits (natDigits n) 0 = some n := by
  rw [natDigits, parseDigits_natDigitsAux n n 0 (le_refl n)]
  simp

theorem natDigits_ne_nil (n : Nat) (h : 0 < n) : natDigits n ≠ [] := by
  rw [natDigits]
  match n, h with
  | n + 1, _ =>
      simp only [natDigitsAux]
      rw [if_neg (by omega : ¬ n + 1 = 0)]
      simp

theorem itoa_ne_nil (n : Int) : itoa n ≠ [] := by
  rw [itoa]
  by_cases h1 : n < 0
  · rw [if_pos h1]; simp
  · rw [if_neg h1]
    by_cases h2 : n = 0
    · rw [if_pos h2]; simp
    · rw [if_neg h2]
      exact natDigits_ne_nil _ (by omega)

theorem itoa_lt_256 (n : Int) : ∀ c ∈ itoa n, c < 256 := by
  intro c hc
  rw [itoa] at hc
  by_cases h1 : n < 0
  · rw [if_pos h1] at hc
    rcases List.mem_cons.mp hc with h | h
    · omega
    · have := natDigitsAux_digits _ _ _ h; omega
  · rw [if_neg h1] at hc
    by_cases h2 : n = 0
    · rw [if_pos h2] at hc; simp at hc; omega
    · rw [if_neg h2] at hc
      have := natDigitsAux_digits _ _ _ hc; omega

/-- Round trip `strconv.Atoi ∘ strconv.Itoa = id` on 64-bit integers. -/
theorem atoi_itoa (n : Int) (h1 : -(2 ^ 63) ≤ n) (h2 : n ≤ 2 ^ 63 - 1) :
    atoi (itoa n) = some n := by
  rcases lt_trichotomy n 0 with hneg | hzero | hpos
  · rw [itoa, if_pos hneg]
    have hm : 0 < (-n).toNat := by omega
    obtain ⟨c, cs, hcs⟩ : ∃ c cs, natDigits (-n).toNat = c :: cs := by
      cases hd : natDigits (-n).toNat with
      | nil => exact absurd hd (natDigits_ne_nil _ hm)
      | cons c cs => exact ⟨c, cs, rfl⟩
    rw [hcs]
    have hp : parseDigits (c :: cs) 0 = some (-n).toNat := by
      rw [← hcs]; exact parseDigits_natDigits _
    simp only [atoi, hp, Option.some_bind, reduceIte]
    rw [if_pos (by omega : ((-n).toNat : Int) ≤ 2 ^ 63)]
    rw [Int.toNat_of_nonneg (by omega : (0 : Int) ≤ -n)]
    simp
  · subst hzero
    rfl
  · rw [itoa, if_neg (by omega : ¬ n < 0), if_neg (by omega : ¬ n = 0)]
    have hm : 0 < n.toNat := by omega
    obtain ⟨c, cs, hcs⟩ : ∃ c cs, natDigits n.toNat = c :: cs := by
      cases hd : natDigits n.toNat with
      | nil => exact absurd hd (natDigits_ne_nil _ hm)
      | cons c cs => exact ⟨c, cs, rfl⟩
    have hdig : 48 ≤ c ∧ c ≤ 57 :=
      natDigitsAux_digits _ _ c (by rw [natDigits] at hcs; rw [hcs]; simp)
    have hp : parseDigits (c :: cs) 0 = some n.toNat := by
      rw [← hcs]; exact parseDigits_natDigits _
    rw [hcs]
    simp only [atoi, if_neg (by omega : ¬ c = 43), if_neg (by omega : ¬ c = 45),
      hp, Option.some_bind]
    rw [if_pos (by omega : (n.toNat : Int) ≤ 2 ^ 63 - 1)]
    rw [Int.toNat_of_nonneg (by omega : (0 : Int) ≤ n)]

/-- Decoding a generated page token recovers the encoded offset. -/
theorem decodeOffset_encodePageToken (n : Int) (h1 : -(2 ^ 63) ≤ n)
    (h2 : n ≤ 2 ^ 63 - 1) : decodeOffset (encodePageToken n) = .ok n := by
  rw [decodeOffset, encodePageToken]
  rw [if_neg (b64encode_ne_nil _ (itoa_ne_nil n))]
  simp only [b64decode_b64encode _ (itoa_lt_256 n), atoi_itoa n h1 h2]

/-! ## The `ORDER BY` relation and sequential creation -/

theorem orderedInsert_eq_append (a : Entry) (L : List Entry)
    (h : ∀ b ∈ L, ¬ rowLE a b) : L.orderedInsert rowLE a = L ++ [a] := by
  induction L with
  | nil => rfl
  | cons b rest ih =>
      rw [List.orderedInsert, if_neg (h b (by simp))]
      rw [ih (fun x hx => h x (by simp [hx]))]
      rfl

/-- On a sequentially created table, the `ORDER BY created_at DESC, id DESC`
query returns exactly the reverse of the creation order. -/
theorem insertionSort_createdSeq (rows : List Entry) (h : CreatedSeq rows) :
    List.insertionSort rowLE rows = rows.reverse := by
  induction rows with
  | nil => rfl
  | cons a rest ih =>
      rcases List.pairwise_cons.mp h with ⟨hhead, htail⟩
      rw [List.insertionSort, ih htail, List.reverse_cons]
      apply orderedInsert_eq_append
      intro b hb
      have hb' := hhead b (List.mem_reverse.mp hb)
      unfold rowLE
      omega

/-! ## Arithmetic helpers for the manager -/

theorem wrap64_eq (x : Int) (h1 : -(2 ^ 63) ≤ x) (h2 : x ≤ 2 ^ 63 - 1) :
    wrap64 x = x := by
  rw [wrap64, Int.emod_eq_of_lt (by omega) (by omega)]
  omega

theorem wrap64_range (x : Int) :
    -(2 ^ 63) ≤ wrap64 x ∧ wrap64 x ≤ 2 ^ 63 - 1 := by
  rw [wrap64]
  have h1 : 0 ≤ (x + 2 ^ 63) % 2 ^ 64 := Int.emod_nonneg _ (by norm_num)
  have h2 : (x + 2 ^ 63) % 2 ^ 64 < 2 ^ 64 := Int.emod_lt_of_pos _ (by norm_num)
  omega

theorem clampPageSize_in_range (k : Int) (h1 : 1 ≤ k) (h2 : k ≤ 100) :
    clampPageSize k = k := by
  have ha : ¬ k ≤ 0 := by omega
  have hb : ¬ k > 100 := by omega
  simp only [clampPageSize, if_neg ha, if_neg hb]

/-- Evaluating `AdapterList` at a positive limit and a natural offset is the sorted
window plus the full row count. -/
theorem AdapterList_window (db : DB) (k : Int) (o : Nat) (hk : 1 ≤ k) :
    AdapterList db k o =
      .ok (((List.insertionSort rowLE db.rows).drop o).take k.toNat,
           (db.rows.length : Int)) := by
  rw [AdapterList]
  have h1 : max (o : Int) 0 = (o : Int) := max_eq_left (by positivity)
  rw [h1, Int.toNat_natCast, if_neg (by omega : ¬ k < 0)]

/-- One `ListEntries` call against the adapter store, at an in-range page
size and a decoded natural offset: the result is the `take`/`drop` window of
the sorted rows, the true row count, and the next-offset token. -/
theorem ListEntries_adapter (db : DB) (now : Nat) (k : Int) (o : Nat)
    (tok : Str) (hk1 : 1 ≤ k) (hk2 : k ≤ 100)
    (hN : (db.rows.length : Int) ≤ 2 ^ 63 - 1) (ho : o ≤ db.rows.length)
    (htok : decodeOffset tok = .ok (o : Int)) :
    ListEntries adapterStore (db, now) k tok =
      .ok ({ entries := ((List.insertionSort rowLE db.rows).drop o).take k.toNat,
             nextPageToken :=
               if o + min k.toNat (db.rows.length - o) < db.rows.length then
                 encodePageToken ((o + min k.toNat (db.rows.length - o) : Nat) : Int)
               else [],
             totalCount := (db.rows.length : Int) }, (db, now)) := by
  have hsortlen : (List.insertionSort rowLE db.rows).length = db.rows.length :=
    List.length_insertionSort rowLE db.rows
  have hWlen :
      (((List.insertionSort rowLE db.rows).drop o).take k.toNat).length =
        min k.toNat (db.rows.length - o) := by
    simp [hsortlen]
  have hw : wrap64 ((o : Int) + ((min k.toNat (db.rows.length - o) : Nat) : Int)) =
      ((o + min k.toNat (db.rows.length - o) : Nat) : Int) := by
    have hm : min k.toNat (db.rows.length - o) ≤ db.rows.length - o :=
      min_le_right _ _
    rw [wrap64_eq _ (by omega) (by push_cast; omega)]
    push_cast
    ring
  simp only [ListEntries, htok, clampPageSize_in_range k hk1 hk2,
    ListEntriesWithOffset, adapterStore, AdapterList_window db k o hk1,
    Except.map, hw, hWlen]
  have hiff : (((o + min k.toNat (db.rows.length - o) : Nat) : Int) <
      (db.rows.length : Int)) ↔
      (o + min k.toNat (db.rows.length - o) < db.rows.length) := by
    exact_mod_cast Iff.rfl
  by_cases hc : o + min k.toNat (db.rows.length - o) < db.rows.length
  · rw [if_pos (hiff.mpr hc), if_pos hc]
  · rw [if_neg (fun h => hc (hiff.mp h)), if_neg hc]

/-- Following tokens from offset `o` with enough fuel collects exactly the
sorted suffix starting at `o`. -/
theorem followPages_adapter (db : DB) (now : Nat) (k : Int)
    (hk1 : 1 ≤ k) (hk2 : k ≤ 100)
    (hN : (db.rows.length : Int) ≤ 2 ^ 63 - 1) :
    ∀ (fuel : Nat) (o : Nat) (tok : Str), o ≤ db.rows.length →
      db.rows.length - o < fuel →
      decodeOffset tok = .ok (o : Int) →
      followPages adapterStore k fuel (db, now) tok =
        .pages ((List.insertionSort rowLE db.rows).drop o) := by
  intro fuel
  induction fuel with
  | zero => intro o tok ho hf htok; omega
  | succ f ih =>
      intro o tok ho hf htok
      have hk' : 1 ≤ k.toNat := by omega
      have hsortlen : (List.insertionSort rowLE db.rows).length = db.rows.length :=
        List.length_insertionSort rowLE db.rows
      rw [followPages, ListEntries_adapter db now k o tok hk1 hk2 hN ho htok]
      by_cases hc : o + min k.toNat (db.rows.length - o) < db.rows.length
      · have hm : min k.toNat (db.rows.length - o) = k.toNat := by omega
        have hne : encodePageToken ((o + min k.toNat (db.rows.length - o) : Nat) : Int) ≠ [] :=
          b64encode_ne_nil _ (itoa_ne_nil _)
        simp only [if_pos hc, if_neg hne]
        rw [ih (o + min k.toNat (db.rows.length - o))
            (encodePageToken ((o + min k.toNat (db.rows.length - o) : Nat) : Int))
            (by omega)
            (by omega)
            (decodeOffset_encodePageToken _ (by omega) (by push_cast; omega))]
        simp only [hm, List.drop_take_append_drop]
      · have hlen : ((List.insertionSort rowLE db.rows).drop o).length ≤ k.toNat := by
          simp [hsortlen]; omega
        simp only [if_neg hc, List.take_of_length_le hlen, if_true]

/-! ## Error-path helpers -/

theorem atoi_range (s : Str) (n : Int) (h : atoi s = some n) :
    -(2 ^ 63) ≤ n ∧ n ≤ 2 ^ 63 - 1 := by
  cases s with
  | nil => simp [atoi] at h
  | cons c rest =>
      rw [atoi] at h
      by_cases h43 : c = 43
      · rw [if_pos h43] at h
        cases rest with
        | nil => simp at h
        | cons r rs =>
            rw [if_neg (by simp : ¬ (r :: rs : Str) = [])] at h
            rcases Option.bind_eq_some.mp h with ⟨m, hm, hif⟩
            by_cases hb : (m : Int) ≤ 2 ^ 63 - 1
            · rw [if_pos hb] at hif
              injection hif with h'
              omega
            · rw [if_neg hb] at hif
              cases hif
      · rw [if_neg h43] at h
        by_cases h45 : c = 45
        · rw [if_pos h45] at h
          cases rest with
          | nil => simp at h
          | cons r rs =>
              rw [if_neg (by simp : ¬ (r :: rs : Str) = [])] at h
              rcases Option.bind_eq_some.mp h with ⟨m, hm, hif⟩
              by_cases hb : (m : Int) ≤ 2 ^ 63
              · rw [if_pos hb] at hif
                injection hif with h'
                omega
              · rw [if_neg hb] at hif
                cases hif
        · rw [if_neg h45] at h
          rcases Option.bind_eq_some.mp h with ⟨m, hm, hif⟩
          by_cases hb : (m : Int) ≤ 2 ^ 63 - 1
          · rw [if_pos hb] at hif
            injection hif with h'
            omega
          · rw [if_neg hb] at hif
            cases hif

/-- Any offset the decoder accepts lies in the 64-bit `int` range. -/
theorem decodeOffset_range (tok : Str) (n : Int)
    (h : decodeOffset tok = .ok n) : -(2 ^ 63) ≤ n ∧ n ≤ 2 ^ 63 - 1 := by
  rw [decodeOffset] at h
  by_cases he : tok = []
  · rw [if_pos he] at h
    injection h with h'
    omega
  · rw [if_neg he] at h
    cases hd : b64decode tok with
    | none => simp [hd] at h
    | some d =>
        simp only [hd] at h
        cases ha : atoi d with
        | none => simp [ha] at h
        | some m =>
            simp only [ha] at h
            injection h with h'
            subst h'
            exact atoi_range d m ha

/-- A non-empty token that fails base-64 decoding or integer parsing makes
the decoder fail with the invalid-page-token error. -/
theorem decodeOffset_bad (tok : Str) (hne : tok ≠ [])
    (hbad : b64decode tok = none ∨ ∃ d, b64decode tok = some d ∧ atoi d = none) :
    decodeOffset tok = .error .invalidPageToken := by
  rw [decodeOffset, if_neg hne]
  rcases hbad with h | ⟨d, h1, h2⟩
  · rw [h]
  · simp only [h1, h2]

/-- An `UPDATE` on an id with no matching row: zero rows affected, `NotFound`. -/
theorem AdapterUpdate_not_found (db : DB) (id : Int) (title content : Str)
    (now : Nat) (h : ∀ r ∈ db.rows, r.id ≠ id) :
    AdapterUpdate db id title content now = .error (.notFound id) := by
  have haff : (db.rows.filter (fun r => decide (r.id = id))).length = 0 := by
    rw [List.length_eq_zero, List.filter_eq_nil_iff]
    intro r hr
    simpa using h r hr
  simp only [AdapterUpdate, haff, if_true]

/-- A `DELETE` on an id with no matching row: zero rows affected, `NotFound`. -/
theorem AdapterDelete_not_found (db : DB) (id : Int)
    (h : ∀ r ∈ db.rows, r.id ≠ id) :
    AdapterDelete db id = .error (.notFound id) := by
  have haff : (db.rows.filter (fun r => decide (r.id = id))).length = 0 := by
    rw [List.length_eq_zero, List.filter_eq_nil_iff]
    intro r hr
    simpa using h r hr
  simp only [AdapterDelete, haff, if_true]

/-- A `SELECT ... WHERE id = ?` with no matching row: `NotFound`. -/
theorem AdapterGetByID_not_found (db : DB) (id : Int)
    (h : ∀ r ∈ db.rows, r.id ≠ id) :
    AdapterGetByID db id = .error (.notFound id) := by
  have hf : db.rows.find? (fun r => decide (r.id = id)) = none := by
    rw [List.find?_eq_none]
    intro r hr
    simpa using h r hr
  simp only [AdapterGetByID, hf]

/-! ## The claims -/

/-- C1: For every sequence of entries created one after another (monotone
storage clock, strictly increasing AUTOINCREMENT ids) and every fixed page
size `k` with `1 ≤ k ≤ 100`, repeatedly calling `ListEntries` over the
adapter, starting from the empty page token and following each returned
`nextPageToken` until it is empty, yields exactly the `N` created entries —
the reverse of the creation order — hence in strictly descending creation
order, with no duplicates and no omissions.  `fuel` merely caps the number of
iterations the external driver performs (any bound beyond the row count gives
the same outcome); the row count is bounded by the 64-bit range the Go `int`
arithmetic presumes. -/
theorem claim_C1_pagination_coverage (rows : List Entry) (nid : Int)
    (now : Nat) (k : Int) (fuel : Nat)
    (hseq : CreatedSeq rows) (hk1 : 1 ≤ k) (hk2 : k ≤ 100)
    (hN : (rows.length : Int) ≤ 2 ^ 63 - 1) (hfuel : rows.length < fuel) :
    followPages adapterStore k fuel ({ rows := rows, nextId := nid }, now) [] =
      .pages rows.reverse ∧
    rows.reverse.length = rows.length ∧
    rows.reverse.Perm rows ∧
    List.Pairwise
      (fun a b => b.createdAt < a.createdAt ∨
        (b.createdAt = a.createdAt ∧ b.id < a.id)) rows.reverse := by
  refine ⟨?_, List.length_reverse rows, List.reverse_perm rows, ?_⟩
  · have h0 : decodeOffset ([] : Str) = .ok ((0 : Nat) : Int) := by
      norm_num [decodeOffset]
    have hmain := followPages_adapter { rows := rows, nextId := nid } now k hk1 hk2
      hN fuel 0 [] (Nat.zero_le _) (by simpa using hfuel) h0
    rw [hmain, List.drop_zero, insertionSort_createdSeq rows hseq]
  · rw [List.pairwise_reverse]
    exact hseq.imp (fun h => by omega)

theorem claim_C1_witness :
    followPages adapterStore 2 4 ({ rows := wRows, nextId := 4 }, 9) [] =
      .pages wRows.reverse :=
  (claim_C1_pagination_coverage wRows 4 9 2 4 (by decide) (by decide) (by decide)
    (by decide) (by decide)).1

/-- C3 (amended): the call `ListEntries` with a non-empty page token that is not
valid base-64, or whose decoded text is not parseable as an integer
(optionally signed decimal within the 64-bit range), fails with
InvalidPageToken; the outcome is the same for every store, i.e. no storage
query is performed and the failure is never mistaken for offset 0.
(The original claim also demanded rejection of tokens that decode to negative
integers; the code accepts those — see the counterexample.) -/
theorem claim_C3_token_tamper_rejection {σ : Type} (ops : StoreOps σ) (s : σ)
    (pageSize : Int) (pageToken : Str) (hne : pageToken ≠ [])
    (hbad : b64decode pageToken = none ∨
      ∃ d, b64decode pageToken = some d ∧ atoi d = none) :
    ListEntries ops s pageSize pageToken = .error .invalidPageToken ∧
    ∀ (σ' : Type) (ops' : StoreOps σ') (s' : σ') (pageSize' : Int),
      ListEntries ops' s' pageSize' pageToken = .error .invalidPageToken := by
  have hdec := decodeOffset_bad pageToken hne hbad
  exact ⟨by simp only [ListEntries, hdec],
    fun σ' ops' s' ps' => by simp only [ListEntries, hdec]⟩

/-- C3, counterexample to the original wording: the token `"LTE="` is
valid base-64 and decodes to `"-1"`, which is *not* a non-negative integer,
yet `ListEntries` does not fail with InvalidPageToken: `strconv.Atoi` accepts
`"-1"`, the store is queried (its total count 5 reaches the result), and the
call succeeds. -/
theorem claim_C3_counterexample :
    asciiStr "LTE=" ≠ [] ∧
    b64decode (asciiStr "LTE=") = some (asciiStr "-1") ∧
    atoi (asciiStr "-1") = some (-1) ∧
    ListEntries (constStore [] 5) () 10 (asciiStr "LTE=") =
      .ok ({ entries := [], nextPageToken := asciiStr "LTE=",
             totalCount := 5 }, ()) ∧
    ListEntries (constStore [] 5) () 10 (asciiStr "LTE=") ≠
      .error .invalidPageToken := by
  decide

theorem claim_C3_witness :
    ListEntries (constStore [] 5) () 10 (asciiStr "####") =
      .error .invalidPageToken :=
  (claim_C3_token_tamper_rejection (constStore [] 5) () 10 (asciiStr "####")
    (by decide) (.inl (by decide))).1

/-- C5: calling `ListEntries` with `pageSize ≤ 0` behaves identically to the call
with page size 10, and with `pageSize > 100` identically to the call with
page size 100, for every store, state and token; the clamp is silent. -/
theorem claim_C5_page_size_clamping {σ : Type} (ops : StoreOps σ) (s : σ)
    (pageSize : Int) (pageToken : Str) :
    (pageSize ≤ 0 →
      ListEntries ops s pageSize pageToken = ListEntries ops s 10 pageToken) ∧
    (100 < pageSize →
      ListEntries ops s pageSize pageToken = ListEntries ops s 100 pageToken) := by
  constructor
  · intro h
    have hc : clampPageSize pageSize = clampPageSize 10 := by
      simp only [clampPageSize, if_pos h]
      decide
    simp only [ListEntries, hc]
  · intro h
    have hc : clampPageSize pageSize = clampPageSize 100 := by
      simp only [clampPageSize, if_neg (by omega : ¬ pageSize ≤ 0),
        if_pos (by omega : pageSize > 100)]
      decide
    simp only [ListEntries, hc]

theorem claim_C5_witness :
    ListEntries (constStore [] 0) () 0 [] = ListEntries (constStore [] 0) () 10 [] ∧
    ListEntries (constStore [] 0) () 500 [] = ListEntries (constStore [] 0) () 100 [] :=
  ⟨(claim_C5_page_size_clamping (constStore [] 0) () 0 []).1 (by decide),
   (claim_C5_page_size_clamping (constStore [] 0) () 500 []).2 (by decide)⟩

/-- C6: the operations `CreateEntry` and `UpdateEntry` reject an empty title, then an
empty content (checked independently, in that order), with the matching
validation message, and the outcome is the same for every store — the store
is never invoked on the failing path.  With both fields non-empty the call is
delegated verbatim to the store's `Create` / `Update`. -/
theorem claim_C6_validation_gate {σ : Type} (ops : StoreOps σ) (s : σ)
    (id : Int) (title content : Str) :
    (title = [] →
      CreateEntry ops s title content = .error (.validationError titleEmptyMsg) ∧
      UpdateEntry ops s id title content = .error (.validationError titleEmptyMsg)) ∧
    (title ≠ [] → content = [] →
      CreateEntry ops s title content = .error (.validationError contentEmptyMsg) ∧
      UpdateEntry ops s id title content = .error (.validationError contentEmptyMsg)) ∧
    (title ≠ [] → content ≠ [] →
      CreateEntry ops s title content = ops.create title content s ∧
      UpdateEntry ops s id title content = ops.update id title content s) := by
  refine ⟨fun ht => ?_, fun ht hc => ?_, fun ht hc => ?_⟩
  · constructor <;> simp [CreateEntry, UpdateEntry, ht]
  · constructor <;> simp [CreateEntry, UpdateEntry, ht, hc]
  · constructor <;> simp [CreateEntry, UpdateEntry, ht, hc]

theorem claim_C6_witness :
    CreateEntry (constStore [] 0) () [] [99] =
      .error (.validationError titleEmptyMsg) ∧
    UpdateEntry (constStore [] 0) () 1 [116] [] =
      .error (.validationError contentEmptyMsg) ∧
    CreateEntry (constStore [] 0) () [116] [99] =
      (constStore [] 0).create [116] [99] () :=
  ⟨((claim_C6_validation_gate (constStore [] 0) () 1 [] [99]).1 rfl).1,
   (((claim_C6_validation_gate (constStore [] 0) () 1 [116] []).2.1
      (by decide) rfl)).2,
   ((claim_C6_validation_gate (constStore [] 0) () 1 [116] [99]).2.2
      (by decide) (by decide)).1⟩

/-- C2: For every successful `ListEntries` call — token decoded to
`offset`, store answering `(es, tc)` at the clamped page size — the result's
`nextPageToken` is the base-64 encoding of the decimal text of
`offset + es.length` when that sum is strictly less than `tc`, and the empty
string otherwise.  (The no-overflow hypothesis rules out wrap-around of the Go
`int` addition `offset + len(entries)`, impossible with a store backed by
actual rows.) -/
theorem claim_C2_next_page_token {σ : Type} (ops : StoreOps σ) (s s' : σ)
    (pageSize : Int) (pageToken : Str) (offset : Int) (es : List Entry)
    (tc : Int)
    (hdec : decodeOffset pageToken = .ok offset)
    (hlist : ops.list (clampPageSize pageSize) offset s = .ok ((es, tc), s'))
    (hov : offset + es.length ≤ 2 ^ 63 - 1) :
    ListEntries ops s pageSize pageToken =
      .ok ({ entries := es,
             nextPageToken :=
               if offset + es.length < tc then
                 encodePageToken (offset + es.length)
               else [],
             totalCount := tc }, s') := by
  have hlo : -(2 ^ 63) ≤ offset := (decodeOffset_range _ _ hdec).1
  have hw : wrap64 (offset + (es.length : Int)) = offset + es.length :=
    wrap64_eq _ (by omega) hov
  simp only [ListEntries, hdec, ListEntriesWithOffset, hlist, hw]

theorem claim_C2_witness :
    ListEntries (constStore [wE1] 3) () 10 [] =
      .ok ({ entries := [wE1], nextPageToken := encodePageToken 1,
             totalCount := 3 }, ()) := by
  have h := claim_C2_next_page_token (constStore [wE1] 3) () () 10 [] 0
    [wE1] 3 (by decide) (by decide) (by decide)
  simpa using h

/-- C10: Decoding the page token generated for a non-negative offset `n`
yields `n` again; consequently every non-empty `nextPageToken` returned by a
successful `ListEntries` call is accepted — never rejected with
InvalidPageToken — when passed to a subsequent `ListEntries` call (against
any store whose own `List` failures are its own error kinds, never the
manager's invalid-token error; every store in this development satisfies
that). -/
theorem claim_C10_token_roundtrip (n : Int) (h1 : 0 ≤ n)
    (h2 : n ≤ 2 ^ 63 - 1) :
    decodeOffset (encodePageToken n) = .ok n ∧
    ∀ (σ : Type) (ops : StoreOps σ) (s : σ) (pageSize : Int) (pageToken : Str)
      (r : ListEntriesResult) (s2 : σ),
      ListEntries ops s pageSize pageToken = .ok (r, s2) →
      r.nextPageToken ≠ [] →
      ∀ (σ' : Type) (ops' : StoreOps σ') (s' : σ') (pageSize' : Int),
        (∀ lim off st, ops'.list lim off st ≠ .error .invalidPageToken) →
        ListEntries ops' s' pageSize' r.nextPageToken ≠
          .error .invalidPageToken := by
  refine ⟨decodeOffset_encodePageToken n (by omega) h2, ?_⟩
  intro σ ops s ps tok r s2 hok hne σ' ops' s' ps' hstore
  rw [ListEntries] at hok
  cases hd : decodeOffset tok with
  | error e => simp [hd] at hok
  | ok off =>
      simp only [hd] at hok
      rw [ListEntriesWithOffset] at hok
      cases hl : ops.list (clampPageSize ps) off s with
      | error e => simp [hl] at hok
      | ok p =>
          obtain ⟨⟨es, tc⟩, st⟩ := p
          simp only [hl] at hok
          injection hok with h'
          rw [Prod.mk.injEq] at h'
          obtain ⟨hr, hs2⟩ := h'
          subst hr
          by_cases hcond : wrap64 (off + (es.length : Int)) < tc
          · simp only [if_pos hcond]
            have hrange := wrap64_range (off + (es.length : Int))
            have hdec2 : decodeOffset (encodePageToken (wrap64 (off + es.length))) =
                .ok (wrap64 (off + es.length)) :=
              decodeOffset_encodePageToken _ hrange.1 hrange.2
            rw [ListEntries]
            simp only [hdec2]
            rw [ListEntriesWithOffset]
            cases hl2 : ops'.list (clampPageSize ps') (wrap64 (off + es.length)) s' with
            | error e2 =>
                simp only [hl2]
                intro hcontra
                injection hcontra with he
                exact hstore _ _ _ (he ▸ hl2)
            | ok p2 =>
                obtain ⟨⟨es2, tc2⟩, st2⟩ := p2
                simp only [hl2]
                intro hcontra
                cases hcontra
          · simp only [if_neg hcond] at hne
            exact absurd rfl hne

theorem claim_C10_witness :
    decodeOffset (encodePageToken 7) = .ok 7 ∧
    ListEntries (constStore [] 5) () 10 (encodePageToken 0) ≠
      .error .invalidPageToken := by
  constructor
  · exact (claim_C10_token_roundtrip 7 (by decide) (by decide)).1
  · exact (claim_C10_token_roundtrip 7 (by decide) (by decide)).2 Unit
      (constStore [] 5) () 10 []
      { entries := [], nextPageToken := encodePageToken 0, totalCount := 5 } ()
      (by decide) (by decide) Unit (constStore [] 5) () 10
      (fun lim off st => by simp [constStore])

/-- C4 (amended): For every *non-negative* limit and every offset, the
adapter's `List` returns at most `limit` entries, sorted by
`created_at DESC, id DESC` (the relation `rowLE`), and a `totalCount` equal
to the count of all rows, independent of the window.  (The original claim
quantified over *every* limit; for a negative limit SQLite's `LIMIT` means
"no upper bound", so the returned page can exceed the limit — see the
counterexample.) -/
theorem claim_C4_list_window (db : DB) (limit offset : Int) (hl : 0 ≤ limit)
    (es : List Entry) (tc : Int)
    (h : AdapterList db limit offset = .ok (es, tc)) :
    (es.length : Int) ≤ limit ∧ List.Sorted rowLE es ∧
    tc = (db.rows.length : Int) := by
  simp only [AdapterList, if_neg (by omega : ¬ limit < 0)] at h
  injection h with h'
  rw [Prod.mk.injEq] at h'
  obtain ⟨hes, htc⟩ := h'
  subst hes
  subst htc
  refine ⟨?_, ?_, rfl⟩
  · have h1 : (((List.insertionSort rowLE db.rows).drop
        (max offset 0).toNat).take limit.toNat).length ≤ limit.toNat :=
      List.length_take_le _ _
    omega
  · have hs : List.Sorted rowLE (List.insertionSort rowLE db.rows) :=
      List.sorted_insertionSort rowLE db.rows
    exact hs.sublist ((List.take_sublist _ _).trans (List.drop_sublist _ _))

/-- C4, counterexample to the original wording: with `limit = -1` (legal
for SQLite: "no upper bound") the adapter returns one entry from a one-row
table, which is not "at most `limit`" entries. -/
theorem claim_C4_counterexample :
    AdapterList { rows := [wE1], nextId := 2 } (-1) 0 = .ok ([wE1], 1) ∧
    ¬ ((([wE1] : List Entry).length : Int) ≤ -1) := by decide

theorem claim_C4_witness :
    ((([wE2, wE1] : List Entry).length : Int) ≤ 2 ∧
      List.Sorted rowLE [wE2, wE1] ∧ (3 : Int) = (wDB.rows.length : Int)) :=
  claim_C4_list_window wDB 2 1 (by decide) [wE2, wE1] 3 (by decide)

/-- C7: For every id with no matching row, the adapter's `Update` and
`Delete` fail with `NotFound` (zero rows affected implies `NotFound`) and
never silently succeed. -/
theorem claim_C7_zero_rows_not_found (db : DB) (id : Int)
    (title content : Str) (now : Nat) (h : ∀ r ∈ db.rows, r.id ≠ id) :
    AdapterUpdate db id title content now = .error (.notFound id) ∧
    AdapterDelete db id = .error (.notFound id) :=
  ⟨AdapterUpdate_not_found db id title content now h,
   AdapterDelete_not_found db id h⟩

theorem claim_C7_witness :
    AdapterUpdate { rows := [], nextId := 1 } 7 [97] [98] 0 =
      .error (.notFound 7) ∧
    AdapterDelete { rows := [], nextId := 1 } 7 = .error (.notFound 7) :=
  claim_C7_zero_rows_not_found { rows := [], nextId := 1 } 7 [97] [98] 0
    (by decide)

/-- A successful `GetByID` returns a row of the table carrying the id that
was asked for. -/
theorem AdapterGetByID_ok_id (db : DB) (i : Int) (e : Entry)
    (h : AdapterGetByID db i = .ok e) : e.id = i ∧ e ∈ db.rows := by
  rw [AdapterGetByID] at h
  cases hf : db.rows.find? (fun r => decide (r.id = i)) with
  | none => simp [hf] at h
  | some e' =>
      simp only [hf] at h
      injection h with h'
      subst h'
      exact ⟨by simpa using List.find?_some hf, List.mem_of_find?_eq_some hf⟩

/-- A successful `Delete` leaves exactly the rows whose id differs. -/
theorem AdapterDelete_ok_rows (db : DB) (i : Int) (db2 : DB)
    (h : AdapterDelete db i = .ok db2) :
    db2.rows = db.rows.filter (fun r => decide (¬ r.id = i)) := by
  rw [AdapterDelete] at h
  by_cases haff : (db.rows.filter (fun r => decide (r.id = i))).length = 0
  · simp [haff] at h
  · rw [if_neg haff] at h
    injection h with h'
    rw [← h']

/-- C8: Row-not-found outcomes are the `NotFound` error kind, distinct
from `StorageError` (and from every other kind), and the manager's
`GetEntry`, `UpdateEntry` and `DeleteEntry` over the adapter surface exactly
that kind for an id with no row; an entry that is created and then deleted is
subsequently reported `NotFound` by `GetByID`. -/
theorem claim_C8_not_found_kind (db : DB) (now : Nat) (id : Int)
    (title content : Str)
    (hmiss : ∀ r ∈ db.rows, r.id ≠ id)
    (ht : title ≠ []) (hc : content ≠ []) :
    AdapterGetByID db id = .error (.notFound id) ∧
    GetEntry adapterStore (db, now) id = .error (.notFound id) ∧
    UpdateEntry adapterStore (db, now) id title content =
      .error (.notFound id) ∧
    DeleteEntry adapterStore (db, now) id = .error (.notFound id) ∧
    (∀ (j : Int) (m : Str), Err.notFound j ≠ Err.storageError ∧
      Err.notFound j ≠ Err.validationError m ∧
      Err.notFound j ≠ Err.invalidPageToken) ∧
    (∀ e db2, AdapterCreate db title content now = .ok (e, db2) →
      ∀ db3, AdapterDelete db2 e.id = .ok db3 →
        AdapterGetByID db3 e.id = .error (.notFound e.id)) := by
  have hget := AdapterGetByID_not_found db id hmiss
  refine ⟨hget, ?_, ?_, ?_, ?_, ?_⟩
  · simp only [GetEntry, adapterStore, hget, Except.map]
  · simp only [UpdateEntry, if_neg ht, if_neg hc, adapterStore,
      AdapterUpdate_not_found db id title content now hmiss, Except.map]
  · simp only [DeleteEntry, adapterStore,
      AdapterDelete_not_found db id hmiss, Except.map]
  · intro j m
    refine ⟨?_, ?_, ?_⟩ <;> intro hcontra <;> cases hcontra
  · intro e db2 hcreate db3 hdelete
    have hrows3 := AdapterDelete_ok_rows db2 e.id db3 hdelete
    apply AdapterGetByID_not_found
    intro r hr
    rw [hrows3] at hr
    have := List.of_mem_filter hr
    simpa using this

theorem claim_C8_witness :
    AdapterGetByID { rows := [wE1], nextId := 2 } 9 = .error (.notFound 9) ∧
    GetEntry adapterStore ({ rows := [wE1], nextId := 2 }, 0) 9 =
      .error (.notFound 9) ∧
    UpdateEntry adapterStore ({ rows := [wE1], nextId := 2 }, 0) 9 [99] [100] =
      .error (.notFound 9) ∧
    DeleteEntry adapterStore ({ rows := [wE1], nextId := 2 }, 0) 9 =
      .error (.notFound 9) := by
  have h := claim_C8_not_found_kind { rows := [wE1], nextId := 2 } 0 9 [99]
    [100] (by decide) (by decide) (by decide)
  exact ⟨h.1, h.2.1, h.2.2.1, h.2.2.2.1⟩

/-! ## Storage invariants (schema + wall clock) -/

/-- On a table whose ids are below the counter, `Create` inserts the fresh
row and reads exactly it back. -/
theorem AdapterCreate_ok (db : DB) (title content : Str) (now2 : Nat)
    (hids : ∀ r ∈ db.rows, r.id < db.nextId) :
    AdapterCreate db title content now2 =
      .ok ({ id := db.nextId, title := title, content := content,
             createdAt := now2, updatedAt := now2 },
           { rows := db.rows ++ [{ id := db.nextId, title := title, content := content, createdAt := now2, updatedAt := now2 }],
             nextId := db.nextId + 1 }) := by
  have hnone : db.rows.find? (fun r => decide (r.id = db.nextId)) = none := by
    rw [List.find?_eq_none]
    intro r hr
    have := hids r hr
    simp
    omega
  have hf : (db.rows ++ [({ id := db.nextId, title := title, content := content, createdAt := now2, updatedAt := now2 } : Entry)]).find? (fun r => decide (r.id = db.nextId)) =
      some { id := db.nextId, title := title, content := content,
             createdAt := now2, updatedAt := now2 } := by
    rw [List.find?_append, hnone]
    simp
  simp only [AdapterCreate, AdapterGetByID, hf]

/-- On a table with pairwise-distinct ids, looking up `id` among the rows
rewritten by an `UPDATE ... WHERE id = ?` finds exactly the updated version
of the row that carried `id`. -/
theorem find?_updated_rows (rows : List Entry) (id : Int)
    (title content : Str) (now2 : Nat) (old : Entry) (hmem : old ∈ rows)
    (hid : old.id = id) (hdist : rows.Pairwise (fun a b => a.id ≠ b.id)) :
    (rows.map (fun r => if r.id = id then
        { r with title := title, content := content, updatedAt := now2 }
      else r)).find? (fun r => decide (r.id = id)) =
      some { old with title := title, content := content, updatedAt := now2 } := by
  induction rows with
  | nil => cases hmem
  | cons a rest ih =>
      rcases List.pairwise_cons.mp hdist with ⟨hhead, htail⟩
      rcases List.mem_cons.mp hmem with h1 | hmem'
      · subst h1
        simp only [List.map_cons, if_pos hid]
        rw [List.find?_cons_of_pos _ (by simp [hid])]
      · have hne : ¬ a.id = id := fun haid =>
          (hhead old hmem') (by rw [haid, hid])
        simp only [List.map_cons, if_neg hne]
        rw [List.find?_cons_of_neg _ (by simp [hne])]
        exact ih hmem' htail

/-- C9: Under the storage invariants and a monotone clock, every
persisted entry keeps `updated_at ≥ created_at` after `Create`, `Update` and
`Delete`; a successful `Update` returns the row with `created_at` unchanged
and `updated_at` refreshed to a time at least the previous `updated_at`
(both fields set at the storage layer), and a fresh row has
`created_at = updated_at`. -/
theorem claim_C9_timestamp_monotonicity (db : DB) (now now2 : Nat) (id : Int)
    (title content : Str) (hwf : DBWF db now) (hmono : now ≤ now2) :
    (∀ e db2, AdapterCreate db title content now2 = .ok (e, db2) →
      DBWF db2 now2 ∧ e.createdAt = now2 ∧ e.updatedAt = now2) ∧
    (∀ e db2, AdapterUpdate db id title content now2 = .ok (e, db2) →
      DBWF db2 now2 ∧
      ∀ old ∈ db.rows, old.id = id →
        e.createdAt = old.createdAt ∧ old.updatedAt ≤ e.updatedAt) ∧
    (∀ db2, AdapterDelete db id = .ok db2 → DBWF db2 now2) := by
  obtain ⟨hbounds, hdist⟩ := hwf
  refine ⟨?_, ?_, ?_⟩
  · intro e db2 h
    rw [AdapterCreate_ok db title content now2 (fun r hr => (hbounds r hr).2.2)]
      at h
    injection h with h'
    rw [Prod.mk.injEq] at h'
    obtain ⟨he, hdb2⟩ := h'
    subst he
    subst hdb2
    refine ⟨⟨?_, ?_⟩, rfl, rfl⟩
    · intro r hr
      rcases List.mem_append.mp hr with hr1 | hr1
      · have := hbounds r hr1
        exact ⟨this.1, by omega, show r.id < db.nextId + 1 by omega⟩
      · rcases List.mem_singleton.mp hr1 with rfl
        exact ⟨le_refl _, le_refl _, show db.nextId < db.nextId + 1 by omega⟩
    · rw [List.pairwise_append]
      refine ⟨hdist, List.pairwise_singleton _ _, ?_⟩
      intro a ha b hb
      rcases List.mem_singleton.mp hb with rfl
      have := (hbounds a ha).2.2
      simp
      omega
  · intro e db2 h
    rw [AdapterUpdate] at h
    by_cases haff : (db.rows.filter (fun r => decide (r.id = id))).length = 0
    · simp [haff] at h
    · rw [if_neg haff] at h
      have hex : ∃ old ∈ db.rows, old.id = id := by
        rcases List.exists_mem_of_length_pos (by omega :
          0 < (db.rows.filter (fun r => decide (r.id = id))).length) with ⟨r, hr⟩
        exact ⟨r, List.mem_of_mem_filter hr, by simpa using List.of_mem_filter hr⟩
      rcases hex with ⟨old0, hmem0, hid0⟩
      rw [AdapterGetByID] at h
      simp only [find?_updated_rows db.rows id title content now2 old0 hmem0
        hid0 hdist] at h
      injection h with h'
      rw [Prod.mk.injEq] at h'
      obtain ⟨he, hdb2⟩ := h'
      subst he
      subst hdb2
      constructor
      · constructor
        · intro r hr
          rcases List.mem_map.mp hr with ⟨r0, hr0, hfr0⟩
          subst hfr0
          have h0 := hbounds r0 hr0
          by_cases hcase : r0.id = id
          · simp only [if_pos hcase]
            exact ⟨by omega, le_refl _, h0.2.2⟩
          · simp only [if_neg hcase]
            exact ⟨h0.1, by omega, h0.2.2⟩
        · rw [List.pairwise_map]
          apply hdist.imp
          intro a b hab
          by_cases hca : a.id = id <;> by_cases hcb : b.id = id <;>
            simp [hca, hcb] <;> omega
      · intro old hmem hid
        have hsymm : Symmetric (fun a b : Entry => a.id ≠ b.id) :=
          fun _ _ hab => Ne.symm hab
        have heq : old = old0 := by
          by_contra hne
          exact List.Pairwise.forall hsymm hdist hmem hmem0 hne
            (hid.trans hid0.symm)
        subst heq
        have h0 := hbounds old hmem0
        exact ⟨rfl, show old.updatedAt ≤ now2 by omega⟩
  · intro db2 h
    have hrows2 := AdapterDelete_ok_rows db id db2 h
    have hnext : db2.nextId = db.nextId := by
      rw [AdapterDelete] at h
      by_cases haff : (db.rows.filter (fun r => decide (r.id = id))).length = 0
      · simp [haff] at h
      · rw [if_neg haff] at h
        injection h with h'
        rw [← h']
    constructor
    · intro r hr
      rw [hrows2] at hr
      have := hbounds r (List.mem_of_mem_filter hr)
      rw [hnext]
      exact ⟨this.1, by omega, this.2.2⟩
    · rw [hrows2]
      exact hdist.sublist (List.filter_sublist _)

theorem claim_C9_witness :
    DBWF { rows := [wE1upd], nextId := 2 } 5 ∧
    wE1upd.createdAt = wE1.createdAt ∧ wE1.updatedAt ≤ wE1upd.updatedAt := by
  have h := (claim_C9_timestamp_monotonicity { rows := [wE1], nextId := 2 }
    1 5 1 [99] [100] (by decide) (by decide)).2.1
  have h2 := h wE1upd { rows := [wE1upd], nextId := 2 } (by decide)
  exact ⟨h2.1, (h2.2 wE1 (by decide) (by decide)).1,
    (h2.2 wE1 (by decide) (by decide)).2⟩
